import Mathlib

/-!
Verification of the fancy-garbling circuit parser
(src/fancy-garbling/src/parser.rs) and of the garbling-scheme
correctness contract described in the specification.

The parser is embedded shallowly: the input file is a list of lines
(each without its newline terminator), machine integers are naturals
with an explicit 2^64 bound where `usize` conversion can fail, and the
three outcomes of `Circuit::parse` are modelled by `PResult`:
a returned `Ok` value, a returned `Err` value, or a panic
(out-of-bounds indexing / `unwrap` on a failed conversion).
Checked-arithmetic (debug) semantics are used for `usize` subtraction:
an underflow is a panic.
-/

namespace FG

/-- The `CircuitParserError` variants reachable from `Circuit::parse`
(IO errors are outside the embedding: the file is given as its lines). -/
inductive Error where
  | ParseIntError
  | ParseLineError (line : String)
  | ParseGateError (gate : String)
  | InputError
deriving DecidableEq, Repr

/-- Outcome of a Rust function returning `Result`: an `Ok` value, an
`Err` value, or a panic (unreachable code is code that never panics). -/
inductive PResult (α : Type) where
  | ok (a : α)
  | err (e : Error)
  | panic
deriving DecidableEq, Repr

def PResult.map {α β : Type} (f : α → β) : PResult α → PResult β
  | .ok a => .ok (f a)
  | .err e => .err e
  | .panic => .panic

def PResult.isOk {α : Type} : PResult α → Bool
  | .ok _ => true
  | _ => false

/-- `CircuitRef { ix, modulus }` from the Circuit IR (circuit.rs is not
under src/; the fields are those used by parser.rs and spec section 3). -/
structure CircuitRef where
  ix : Nat
  modulus : Nat
deriving DecidableEq, Repr

/-- Modelled from the spec: the `Gate` variant list of the Circuit IR
(circuit.rs is not under src/) — spec section 3, matching every
constructor applied in parser.rs. `out` is an optional explicit output
wire index; absence means "next sequential wire". -/
inductive Gate where
  | GarblerInput (id : Nat)
  | EvaluatorInput (id : Nat)
  | Constant (val : Nat)
  | Add (xref yref : CircuitRef) (out : Option Nat)
  | Sub (xref yref : CircuitRef) (out : Option Nat)
  | Mul (xref yref : CircuitRef) (id : Nat) (out : Option Nat)
deriving DecidableEq, Repr

/-- Modelled from the spec: the `Circuit` record of the Circuit IR
(circuit.rs is not under src/) — spec section 3, with exactly the fields
parser.rs fills.  `Circuit::new(Some(ngates))` builds the empty circuit;
the argument is only a capacity hint with no observable effect. -/
structure Circuit where
  gates : List Gate
  garbler_input_refs : List CircuitRef
  evaluator_input_refs : List CircuitRef
  const_refs : List CircuitRef
  output_refs : List CircuitRef
  gate_moduli : List Nat
deriving DecidableEq, Repr

/-! ## String machinery shared by the regexes of parser.rs

`line2vec` with the pattern `(\d+)` (parser.rs lines 47-56) collects the
successive maximal digit runs of a line; `regex2captures` performs an
unanchored leftmost search. -/

/-- Accumulates the maximal digit runs of a character list
(`captures_iter` with pattern `(\d+)`). -/
def digitRunsGo : List Char → List Char → List String
  | [], acc => if acc.isEmpty then [] else [String.mk acc.reverse]
  | c :: rest, acc =>
    if c.isDigit then digitRunsGo rest (c :: acc)
    else if acc.isEmpty then digitRunsGo rest []
    else String.mk acc.reverse :: digitRunsGo rest []

/-- The list of maximal digit runs of a line: `line2vec` at parser.rs
lines 47-56. -/
def digitRuns (s : String) : List String := digitRunsGo s.data []

def natOfDigits (s : List Char) : Nat :=
  s.foldl (fun n c => n * 10 + (c.toNat - 48)) 0

/-- `usize::from_str`: digits only, errors when the value does not fit
in 64 bits. -/
def parseUsize (s : String) : Option Nat :=
  if s.data ≠ [] ∧ s.data.all Char.isDigit then
    if natOfDigits s.data < 2 ^ 64 then some (natOfDigits s.data) else none
  else none

/-- The eager `collect` of width fields (parser.rs lines 103-109 and
123-129); each element goes through `parse().unwrap()`. -/
def parseAllUsize : List String → Option (List Nat)
  | [] => some []
  | s :: rest =>
    match parseUsize s, parseAllUsize rest with
    | some n, some ns => some (n :: ns)
    | _, _ => none

/-- Strips an expected literal prefix, returning the remainder. -/
def stripLit : List Char → List Char → Option (List Char)
  | [], s => some s
  | _ :: _, [] => none
  | c :: cs, d :: ds => if d = c then stripLit cs ds else none

/-- Consumes a nonempty maximal digit run (the greedy `(\d+)` group;
every group in the two gate regexes is followed by a non-digit literal,
so greedy matching without backtracking is exact). -/
def takeRun (s : List Char) : Option (List Char × List Char) :=
  match s.takeWhile Char.isDigit with
  | [] => none
  | run => some (run, s.dropWhile Char.isDigit)

/-- Tries a matcher at every start position, leftmost first: the
unanchored `Regex::captures` search of `regex2captures`
(parser.rs lines 42-45). -/
def searchFrom {α : Type} (f : List Char → Option α) : List Char → Option α
  | [] => f []
  | c :: rest => (f (c :: rest)).orElse fun _ => searchFrom f rest

/-- A match of `1 1 (\d+) (\d+) INV` starting at the head of `s`
(parser.rs line 172); yields the two capture groups. -/
def matchRe1At (s : List Char) : Option (String × String) :=
  match stripLit "1 1 ".data s with
  | none => none
  | some s =>
    match takeRun s with
    | none => none
    | some (r1, s) =>
      match stripLit " ".data s with
      | none => none
      | some s =>
        match takeRun s with
        | none => none
        | some (r2, s) =>
          match stripLit " INV".data s with
          | none => none
          | some _ => some (String.mk r1, String.mk r2)

/-- A match of `2 1 (\d+) (\d+) (\d+) ((AND|XOR))` starting at the head
of `s` (parser.rs line 173); the Bool is true for AND (capture 4). -/
def matchRe2At (s : List Char) : Option (String × String × String × Bool) :=
  match stripLit "2 1 ".data s with
  | none => none
  | some s =>
    match takeRun s with
    | none => none
    | some (r1, s) =>
      match stripLit " ".data s with
      | none => none
      | some s =>
        match takeRun s with
        | none => none
        | some (r2, s) =>
          match stripLit " ".data s with
          | none => none
          | some s =>
            match takeRun s with
            | none => none
            | some (r3, s) =>
              match stripLit " ".data s with
              | none => none
              | some s =>
                match stripLit "AND".data s with
                | some _ => some (String.mk r1, String.mk r2, String.mk r3, true)
                | none =>
                  match stripLit "XOR".data s with
                  | some _ => some (String.mk r1, String.mk r2, String.mk r3, false)
                  | none => none

def matchRe1 (l : String) : Option (String × String) :=
  searchFrom matchRe1At l.data

def matchRe2 (l : String) : Option (String × String × String × Bool) :=
  searchFrom matchRe2At l.data

/-! ## The parser (parser.rs lines 63-236) -/

/-- The intersection emptiness test on the two input-index sets
(parser.rs lines 71-77). -/
def hasOverlap (g e : List Nat) : Bool :=
  g.any fun x => e.any fun y => x == y

/-- First header line (parser.rs lines 82-94): the digit runs must be
exactly two, else `ParseLineError` carrying the line; each run is then
converted with `?` (`ParseIntError` on overflow). -/
def parseHeader1 (line : String) : PResult (Nat × Nat) :=
  match digitRuns line with
  | [s1, s2] =>
    match parseUsize s1, parseUsize s2 with
    | some a, some b => .ok (a, b)
    | _, _ => .err .ParseIntError
  | _ => .err (.ParseLineError line)

/-- Second and third header lines share one shape (parser.rs lines
96-114 and 116-134): `line_x[0]` is indexed before any check — a panic
when the line holds no digit run; the count is converted with `?`; the
width fields are converted with `unwrap` — a panic on overflow; finally
the width count must equal the declared count. -/
def parseGroupLine (line : String) : PResult (Nat × List Nat) :=
  match digitRuns line with
  | [] => .panic
  | s0 :: rest =>
    match parseUsize s0 with
    | none => .err .ParseIntError
    | some n =>
      match parseAllUsize rest with
      | none => .panic
      | some ws => if ws.length ≠ n then .err (.ParseLineError line) else .ok (n, ws)

/-- The gate-section loop (parser.rs lines 175-233): dispatch on the
first character of each line; `id` is the Mul nonce, advanced only by
AND lines. -/
def parseGates (oneref : CircuitRef) : List String → Nat → PResult (List Gate)
  | [], _ => .ok []
  | l :: rest, id =>
    match l.data.head? with
    | none => parseGates oneref rest id
    | some c =>
      if c = '1' then
        match matchRe1 l with
        | none => .err (.ParseLineError l)
        | some (sy, so) =>
          match parseUsize sy, parseUsize so with
          | some y, some o =>
            (parseGates oneref rest id).map
              (Gate.Sub oneref (CircuitRef.mk y 2) (some o) :: ·)
          | _, _ => .err .ParseIntError
      else if c = '2' then
        match matchRe2 l with
        | none => .err (.ParseLineError l)
        | some (sx, sy, so, isAnd) =>
          match parseUsize sx, parseUsize sy, parseUsize so with
          | some x, some y, some o =>
            if isAnd then
              (parseGates oneref rest (id + 1)).map
                (Gate.Mul (CircuitRef.mk x 2) (CircuitRef.mk y 2) id (some o) :: ·)
            else
              (parseGates oneref rest id).map
                (Gate.Add (CircuitRef.mk x 2) (CircuitRef.mk y 2) (some o) :: ·)
          | _, _, _ => .err .ParseIntError
      else .err (.ParseLineError l)

/-- The gate prelude pushed before the gate loop (parser.rs lines
138-162): one GarblerInput per distinct garbler wire, one
EvaluatorInput per distinct evaluator wire, then the constant-one
gate. -/
def preludeGates (G E : Nat) : List Gate :=
  (List.range G).map Gate.GarblerInput ++ (List.range E).map Gate.EvaluatorInput
    ++ [Gate.Constant 1]

/-- The circuit assembled on the success path of `Circuit::parse`.
`G`/`E` are the `HashSet` sizes (distinct counts); the input refs use
the first `G` (resp. `E`) entries of the caller vectors (parser.rs
lines 138-170 and 234). -/
def mkCircuit (g e : List Nat) (nwires w0 : Nat) (pg : List Gate) : Circuit :=
  { gates := preludeGates g.dedup.length e.dedup.length ++ pg
  , garbler_input_refs := (g.take g.dedup.length).map (fun i => CircuitRef.mk i 2)
  , evaluator_input_refs := (e.take e.dedup.length).map (fun i => CircuitRef.mk i 2)
  , const_refs := [CircuitRef.mk (g.dedup.length + e.dedup.length) 2]
  , output_refs := (List.range w0).map (fun i => CircuitRef.mk (nwires - w0 + i) 2)
  , gate_moduli :=
      List.replicate (preludeGates g.dedup.length e.dedup.length ++ pg).length 2 }

/-- `Circuit::parse` (parser.rs lines 63-236) over the file content
given as its list of lines.  `read_line` past the end of the file
yields the empty string, hence `getD _ ""`.  The declared gate count is
bound and unused: it only sizes the capacity hint of `Circuit::new`.
The output-ref loop evaluates `nwires - output_nwires[0] + i`, a panic
on `usize` underflow whenever the loop body runs at all. -/
def Circuit.parse (lines : List String) (garbler_inputs evaluator_inputs : List Nat) :
    PResult Circuit :=
  if hasOverlap garbler_inputs evaluator_inputs then .err .InputError
  else
    match parseHeader1 (lines.getD 0 "") with
    | .err e => .err e
    | .panic => .panic
    | .ok (_ngates, nwires) =>
      match parseGroupLine (lines.getD 1 "") with
      | .err e => .err e
      | .panic => .panic
      | .ok (_, _) =>
        match parseGroupLine (lines.getD 2 "") with
        | .err e => .err e
        | .panic => .panic
        | .ok (_, output_nwires) =>
          match output_nwires with
          | [] => .panic
          | w0 :: _ =>
            if 0 < w0 ∧ nwires < w0 then .panic
            else
              match parseGates
                  (CircuitRef.mk
                    (garbler_inputs.dedup.length + evaluator_inputs.dedup.length) 2)
                  (lines.drop 3) 0 with
              | .err e => .err e
              | .panic => .panic
              | .ok pg =>
                .ok (mkCircuit garbler_inputs evaluator_inputs nwires w0 pg)

/-! ## Garbling model

`eval_plain`, the garbling engine, the Encoder and garbled evaluation
live in circuit.rs and classic.rs, which are not under src/ (only their
callers are).  They are modelled from the spec (sections 3, 4.1, 4.3,
4.4): wire labels are naturals combined by XOR, the free-XOR offset is
a global `Δ` whose low bit is the reserved color bit, per-Mul tables
are indexed by the two public color bits, and the hash used to mask
table rows is an abstract parameter `H` keyed by the Mul nonce. -/

/-- Pointwise update of a wire store. -/
def upd {α : Type} (m : Nat → Option α) (w : Nat) (v : α) : Nat → Option α :=
  fun x => if x = w then some v else m x

/-- A constant gate value reduced to a boolean wire value (modulus 2). -/
def val2bit (v : Nat) : Bool := decide (v % 2 = 1)

/-- Modelled from the spec: the gate walk of `eval_plain` (circuit.rs
is not under src/) — spec section 4.1: inputs are consumed in encounter
order, Add/Sub are XOR, Mul is AND, a gate writes its explicit `out`
wire or else the next sequential wire (its position), and referencing
an undefined wire or exhausting an input sequence fails. -/
def evalPlainGo : List Gate → Nat → (Nat → Option Bool) → List Bool → List Bool →
    Option (Nat → Option Bool)
  | [], _, m, _, _ => some m
  | gate :: rest, p, m, ga, eb =>
    match gate with
    | .GarblerInput _ =>
      match ga with
      | [] => none
      | v :: ga2 => evalPlainGo rest (p + 1) (upd m p v) ga2 eb
    | .EvaluatorInput _ =>
      match eb with
      | [] => none
      | v :: eb2 => evalPlainGo rest (p + 1) (upd m p v) ga eb2
    | .Constant val => evalPlainGo rest (p + 1) (upd m p (val2bit val)) ga eb
    | .Add x y out =>
      match m x.ix, m y.ix with
      | some a, some b => evalPlainGo rest (p + 1) (upd m (out.getD p) (a.xor b)) ga eb
      | _, _ => none
    | .Sub x y out =>
      match m x.ix, m y.ix with
      | some a, some b => evalPlainGo rest (p + 1) (upd m (out.getD p) (a.xor b)) ga eb
      | _, _ => none
    | .Mul x y _ out =>
      match m x.ix, m y.ix with
      | some a, some b => evalPlainGo rest (p + 1) (upd m (out.getD p) (a && b)) ga eb
      | _, _ => none

/-- Reads the wires named by a ref list, in order. -/
def readRefs {α : Type} (m : Nat → Option α) : List CircuitRef → Option (List α)
  | [] => some []
  | r :: rs =>
    match m r.ix, readRefs m rs with
    | some v, some vs => some (v :: vs)
    | _, _ => none

/-- Modelled from the spec: `eval_plain` (spec section 4.1). -/
def Circuit.eval_plain (c : Circuit) (ga eb : List Bool) : Option (List Bool) :=
  match evalPlainGo c.gates 0 (fun _ => none) ga eb with
  | none => none
  | some m => readRefs m c.output_refs

/-- The label offset selected by a bit: `Δ` for 1, zero for 0
(free-XOR invariant, spec section 3). -/
def offs (b : Bool) (Δ : Nat) : Nat := if b then Δ else 0

/-- The label encoding bit `b` on a wire with base label `base`. -/
def lbl (base : Nat) (b : Bool) (Δ : Nat) : Nat := base ^^^ offs b Δ

/-- The public color bit of a label (point-and-permute, spec
section 3): the reserved low bit. -/
def color (L : Nat) : Bool := L.testBit 0

/-- Intermediate garbling state: final base-label store and, for the
remaining gates, the garbler/evaluator input base labels, the constant
wire labels and the per-Mul tables, each in gate order. -/
structure GParts where
  base : Nat → Option Nat
  gbases : List Nat
  ebases : List Nat
  consts : List Nat
  tables : List (Bool → Bool → Nat)

/-- Modelled from the spec: the garbling walk (spec section 4.3).
Input, constant and Mul output wires draw a fresh base label from the
randomness `R` (indexed by gate position); an Add/Sub output base label
is the XOR of its input base labels, so XOR gates need no table.  A Mul
gate emits a table indexed by the two public color bits: the row for
selector `(ca, cb)` masks the output label for input bits
`(ca XOR color(base_x), cb XOR color(base_y))` with the hash of the two
matching input labels and the gate nonce. -/
def garbleGo (H : Nat → Nat → Nat → Nat) (R : Nat → Nat) (Δ : Nat) :
    List Gate → Nat → (Nat → Option Nat) → Option GParts
  | [], _, B => some ⟨B, [], [], [], []⟩
  | gate :: rest, p, B =>
    match gate with
    | .GarblerInput _ =>
      match garbleGo H R Δ rest (p + 1) (upd B p (R p)) with
      | none => none
      | some parts => some { parts with gbases := R p :: parts.gbases }
    | .EvaluatorInput _ =>
      match garbleGo H R Δ rest (p + 1) (upd B p (R p)) with
      | none => none
      | some parts => some { parts with ebases := R p :: parts.ebases }
    | .Constant val =>
      match garbleGo H R Δ rest (p + 1) (upd B p (R p)) with
      | none => none
      | some parts =>
        some { parts with consts := lbl (R p) (val2bit val) Δ :: parts.consts }
    | .Add x y out =>
      match B x.ix, B y.ix with
      | some bx, some bv =>
        garbleGo H R Δ rest (p + 1) (upd B (out.getD p) (bx ^^^ bv))
      | _, _ => none
    | .Sub x y out =>
      match B x.ix, B y.ix with
      | some bx, some bv =>
        garbleGo H R Δ rest (p + 1) (upd B (out.getD p) (bx ^^^ bv))
      | _, _ => none
    | .Mul x y gid out =>
      match B x.ix, B y.ix with
      | some bx, some bv =>
        match garbleGo H R Δ rest (p + 1) (upd B (out.getD p) (R p)) with
        | none => none
        | some parts =>
          some { parts with tables :=
            (fun ca cb =>
              H (lbl bx (ca.xor (color bx)) Δ) (lbl bv (cb.xor (color bv)) Δ) gid ^^^
                lbl (R p) ((ca.xor (color bx)) && (cb.xor (color bv))) Δ)
            :: parts.tables }
      | _, _ => none

/-- Modelled from the spec: the Encoder — per-input-wire label material
plus output-decode information (spec section 3). -/
structure Encoder where
  garbler_bases : List Nat
  evaluator_bases : List Nat
  output_bases : List Nat
  delta : Nat

/-- Modelled from the spec: the Garbled Circuit — per-Mul ciphertext
tables plus the labels of the constant wires (spec section 3). -/
structure GarbledCircuit where
  tables : List (Bool → Bool → Nat)
  consts : List Nat

/-- Modelled from the spec: `garble(circuit) -> (Encoder,
GarbledCircuit)` (spec section 4.3); a structurally invalid circuit is
reported here. -/
def garble (H : Nat → Nat → Nat → Nat) (R : Nat → Nat) (Δ : Nat) (c : Circuit) :
    Option (Encoder × GarbledCircuit) :=
  match garbleGo H R Δ c.gates 0 (fun _ => none) with
  | none => none
  | some parts =>
    match readRefs parts.base c.output_refs with
    | none => none
    | some obs =>
      some (⟨parts.gbases, parts.ebases, obs, Δ⟩, ⟨parts.tables, parts.consts⟩)

/-- Encodes a value sequence on a base-label sequence. -/
def encList (Δ : Nat) : List Nat → List Bool → Option (List Nat)
  | [], _ => some []
  | _ :: _, [] => none
  | bse :: bs, v :: vs =>
    match encList Δ bs vs with
    | none => none
    | some Ls => some (lbl bse v Δ :: Ls)

/-- Modelled from the spec: Encoder input-encoding for the garbler
inputs. -/
def Encoder.encode_garbler_inputs (en : Encoder) (a : List Bool) : Option (List Nat) :=
  encList en.delta en.garbler_bases a

/-- Modelled from the spec: Encoder input-encoding for the evaluator
inputs. -/
def Encoder.encode_evaluator_inputs (en : Encoder) (b : List Bool) : Option (List Nat) :=
  encList en.delta en.evaluator_bases b

/-- Modelled from the spec: the garbled-evaluation walk (spec section
4.4): same traversal order as plaintext evaluation, Add/Sub XOR the
labels with no table access, Mul opens exactly the table row selected
by the two public color bits. -/
def evalGCGo (H : Nat → Nat → Nat → Nat) :
    List Gate → Nat → (Nat → Option Nat) → List Nat → List Nat → List Nat →
    List (Bool → Bool → Nat) → Option (Nat → Option Nat)
  | [], _, m, _, _, _, _ => some m
  | gate :: rest, p, m, gl, el, cs, ts =>
    match gate with
    | .GarblerInput _ =>
      match gl with
      | [] => none
      | L :: gl2 => evalGCGo H rest (p + 1) (upd m p L) gl2 el cs ts
    | .EvaluatorInput _ =>
      match el with
      | [] => none
      | L :: el2 => evalGCGo H rest (p + 1) (upd m p L) gl el2 cs ts
    | .Constant _ =>
      match cs with
      | [] => none
      | L :: cs2 => evalGCGo H rest (p + 1) (upd m p L) gl el cs2 ts
    | .Add x y out =>
      match m x.ix, m y.ix with
      | some Lx, some Ly =>
        evalGCGo H rest (p + 1) (upd m (out.getD p) (Lx ^^^ Ly)) gl el cs ts
      | _, _ => none
    | .Sub x y out =>
      match m x.ix, m y.ix with
      | some Lx, some Ly =>
        evalGCGo H rest (p + 1) (upd m (out.getD p) (Lx ^^^ Ly)) gl el cs ts
      | _, _ => none
    | .Mul x y gid out =>
      match m x.ix, m y.ix, ts with
      | some Lx, some Ly, t :: ts2 =>
        evalGCGo H rest (p + 1)
          (upd m (out.getD p) (H Lx Ly gid ^^^ t (color Lx) (color Ly))) gl el cs ts2
      | _, _, _ => none

/-- Modelled from the spec: garbled evaluation
`eval(circuit, garbler_labels, evaluator_labels) -> output_labels`
(spec section 4.4). -/
def GarbledCircuit.eval (gc : GarbledCircuit) (H : Nat → Nat → Nat → Nat)
    (c : Circuit) (gl el : List Nat) : Option (List Nat) :=
  match evalGCGo H c.gates 0 (fun _ => none) gl el gc.consts gc.tables with
  | none => none
  | some m => readRefs m c.output_refs

/-- Decodes one output label against its decode-table base. -/
def decode_bit (Δ bse L : Nat) : Option Bool :=
  if L = bse then some false else if L = bse ^^^ Δ then some true else none

/-- Decodes an output-label sequence. -/
def decodeList (Δ : Nat) : List Nat → List Nat → Option (List Bool)
  | [], [] => some []
  | bse :: bs, L :: Ls =>
    match decode_bit Δ bse L, decodeList Δ bs Ls with
    | some v, some vs => some (v :: vs)
    | _, _ => none
  | _, _ => none

/-- Modelled from the spec: output decode via the decode information
the Encoder carries (spec sections 3 and 4.4). -/
def Encoder.decode_outputs (en : Encoder) (Ls : List Nat) : Option (List Bool) :=
  decodeList en.delta en.output_bases Ls

/-- The full pipeline of the correctness contract: garble, encode both
input sequences, evaluate the garbled circuit, decode the output
labels. -/
def garbledRun (H : Nat → Nat → Nat → Nat) (R : Nat → Nat) (Δ : Nat)
    (c : Circuit) (a b : List Bool) : Option (List Bool) :=
  match garble H R Δ c with
  | none => none
  | some (en, gc) =>
    match en.encode_garbler_inputs a, en.encode_evaluator_inputs b with
    | some gl, some el =>
      match gc.eval H c gl el with
      | none => none
      | some outLs => en.decode_outputs outLs
    | _, _ => none

/-- The garbled wire store determined by a base-label store and a plain
value store: defined where both are, holding the label of the plain
value. -/
def merge (Δ : Nat) (B : Nat → Option Nat) (vm : Nat → Option Bool) :
    Nat → Option Nat :=
  fun w =>
    match B w, vm w with
    | some bse, some v => some (lbl bse v Δ)
    | _, _ => none

/-! ## Spec-side predicates

These follow the wording of the specification, to be compared with the
behaviour of the embedded source. -/

/-- Follows the spec wording for line 1: "exactly two integers" — a
digit run, whitespace, a second digit run, and nothing else on the line
(surrounding whitespace tolerated). -/
def specTwoIntegers (s : String) : Bool :=
  let t0 := s.data.dropWhile (· = ' ')
  let r1 := t0.takeWhile Char.isDigit
  let t1 := t0.dropWhile Char.isDigit
  let sp := t1.takeWhile (· = ' ')
  let t2 := t1.dropWhile (· = ' ')
  let r2 := t2.takeWhile Char.isDigit
  let t3 := (t2.dropWhile Char.isDigit).dropWhile (· = ' ')
  !r1.isEmpty && !sp.isEmpty && !r2.isEmpty && t3.isEmpty

/-- Follows the spec wording for the unary gate shape: the whole line is
exactly `1 1 <in> <out> INV`. -/
def specINVShape (s : String) : Bool :=
  match stripLit "1 1 ".data s.data with
  | none => false
  | some t =>
    let r1 := t.takeWhile Char.isDigit
    let t1 := t.dropWhile Char.isDigit
    !r1.isEmpty &&
      match stripLit " ".data t1 with
      | none => false
      | some t2 =>
        let r2 := t2.takeWhile Char.isDigit
        let t3 := t2.dropWhile Char.isDigit
        !r2.isEmpty && t3 = " INV".data

/-- Follows the spec wording for the binary gate shape: the whole line is
exactly `2 1 <in1> <in2> <out> AND` or `... XOR`. -/
def specBinShape (s : String) : Bool :=
  match stripLit "2 1 ".data s.data with
  | none => false
  | some t =>
    let r1 := t.takeWhile Char.isDigit
    let t1 := t.dropWhile Char.isDigit
    !r1.isEmpty &&
      match stripLit " ".data t1 with
      | none => false
      | some t2 =>
        let r2 := t2.takeWhile Char.isDigit
        let t3 := t2.dropWhile Char.isDigit
        !r2.isEmpty &&
          match stripLit " ".data t3 with
          | none => false
          | some t4 =>
            let r3 := t4.takeWhile Char.isDigit
            let t5 := t4.dropWhile Char.isDigit
            !r3.isEmpty && (t5 = " AND".data || t5 = " XOR".data)

/-- Follows the spec wording: a gate line of one of the two admissible
textual shapes. -/
def specAdmissibleGateLine (s : String) : Bool :=
  specINVShape s || specBinShape s

/-- The wire index a gate at position `p` writes: the explicit `out`
index when present, else the next sequential wire (spec section 3). -/
def gateWrite (p : Nat) : Gate → Nat
  | .Add _ _ out => out.getD p
  | .Sub _ _ out => out.getD p
  | .Mul _ _ _ out => out.getD p
  | _ => p

/-- The wire indices a gate reads. -/
def gateReads : Gate → List Nat
  | .Add xref yref _ => [xref.ix, yref.ix]
  | .Sub xref yref _ => [xref.ix, yref.ix]
  | .Mul xref yref _ _ => [xref.ix, yref.ix]
  | _ => []

/-- Follows the spec wording of the structural invariant: every gate
references only wires produced by earlier gates. -/
def producersPrecedeGo : List Gate → Nat → List Nat → Bool
  | [], _, _ => true
  | g :: rest, p, produced =>
    (gateReads g).all produced.contains &&
      producersPrecedeGo rest (p + 1) (gateWrite p g :: produced)

/-- A circuit satisfies producers-precede-consumers. -/
def producersPrecede (c : Circuit) : Bool := producersPrecedeGo c.gates 0 []

/-- The nonce of a Mul gate, none for every other gate kind. -/
def mulId : Gate → Option Nat
  | .Mul _ _ id _ => some id
  | _ => none

/-! ## Concrete witness data -/

/-- Concrete circuit for the C1 witness. -/
def c1Circ : Circuit :=
  { gates := [Gate.GarblerInput 0, Gate.EvaluatorInput 0, Gate.Constant 1,
      Gate.Mul (CircuitRef.mk 0 2) (CircuitRef.mk 1 2) 0 (some 3),
      Gate.Sub (CircuitRef.mk 2 2) (CircuitRef.mk 3 2) (some 4),
      Gate.Add (CircuitRef.mk 3 2) (CircuitRef.mk 4 2) (some 5)]
  , garbler_input_refs := [CircuitRef.mk 0 2]
  , evaluator_input_refs := [CircuitRef.mk 1 2]
  , const_refs := [CircuitRef.mk 2 2]
  , output_refs := [CircuitRef.mk 3 2, CircuitRef.mk 4 2, CircuitRef.mk 5 2]
  , gate_moduli := [2, 2, 2, 2, 2, 2] }

/-- Concrete hash for the C1 witness. -/
def c1Hash : Nat → Nat → Nat → Nat :=
  fun x y gid => (x * 3) ^^^ (y * 5) ^^^ (gid * 7) ^^^ 11

/-- Concrete label randomness for the C1 witness. -/
def c1Rand : Nat → Nat := fun p => (p + 2) * (p + 3)

/-- Concrete circuit for the C4 witness: file `["1 5", "0", "2 2 9"]`
(two output groups of widths 2 and 9; only the first is used). -/
def c4Circ : Circuit :=
  { gates := [Gate.Constant 1]
  , garbler_input_refs := []
  , evaluator_input_refs := []
  , const_refs := [CircuitRef.mk 0 2]
  , output_refs := [CircuitRef.mk 3 2, CircuitRef.mk 4 2]
  , gate_moduli := [2] }

/-- Concrete circuit for the C5 witness: two AND lines separated by an
XOR line. -/
def c5Circ : Circuit :=
  { gates := [Gate.GarblerInput 0, Gate.EvaluatorInput 0, Gate.Constant 1,
      Gate.Mul (CircuitRef.mk 0 2) (CircuitRef.mk 1 2) 0 (some 2),
      Gate.Add (CircuitRef.mk 0 2) (CircuitRef.mk 1 2) (some 2),
      Gate.Mul (CircuitRef.mk 1 2) (CircuitRef.mk 2 2) 1 (some 0)]
  , garbler_input_refs := [CircuitRef.mk 0 2]
  , evaluator_input_refs := [CircuitRef.mk 1 2]
  , const_refs := [CircuitRef.mk 2 2]
  , output_refs := [CircuitRef.mk 2 2]
  , gate_moduli := [2, 2, 2, 2, 2, 2] }

/-- Concrete circuit for C8: the parsed form of a file whose single
gate line reads wires 7 and 8, produced by no earlier gate. -/
def c8Circ : Circuit :=
  { gates := [Gate.Constant 1,
      Gate.Mul (CircuitRef.mk 7 2) (CircuitRef.mk 8 2) 0 (some 4)]
  , garbler_input_refs := []
  , evaluator_input_refs := []
  , const_refs := [CircuitRef.mk 0 2]
  , output_refs := [CircuitRef.mk 4 2]
  , gate_moduli := [2, 2] }

/-- Concrete circuit for the C9 witness. -/
def c9Circ : Circuit :=
  { gates := [Gate.GarblerInput 0, Gate.EvaluatorInput 0, Gate.Constant 1]
  , garbler_input_refs := [CircuitRef.mk 0 2]
  , evaluator_input_refs := [CircuitRef.mk 1 2]
  , const_refs := [CircuitRef.mk 2 2]
  , output_refs := [CircuitRef.mk 2 2]
  , gate_moduli := [2, 2, 2] }

/-! ## Free-XOR algebra -/

lemma xor_cancel_left (a b : Nat) : a ^^^ (a ^^^ b) = b := by
  rw [← Nat.xor_assoc, Nat.xor_self, Nat.zero_xor]

lemma xor_right_eq_self {a b : Nat} (h : a ^^^ b = a) : b = 0 := by
  have h2 := congrArg (fun z => a ^^^ z) h
  simpa [xor_cancel_left, Nat.xor_self] using h2

lemma xor_mix (a b c d : Nat) : (a ^^^ b) ^^^ (c ^^^ d) = (a ^^^ c) ^^^ (b ^^^ d) := by
  rw [Nat.xor_assoc, Nat.xor_assoc]
  congr 1
  rw [← Nat.xor_assoc, ← Nat.xor_assoc]
  congr 1
  exact Nat.xor_comm b c

lemma offs_xor (b1 b2 : Bool) (Δ : Nat) :
    offs b1 Δ ^^^ offs b2 Δ = offs (b1.xor b2) Δ := by
  cases b1 <;> cases b2 <;> simp [offs, Nat.xor_self, Nat.xor_zero, Nat.zero_xor]

lemma lbl_xor (b1 b2 : Nat) (v1 v2 : Bool) (Δ : Nat) :
    lbl b1 v1 Δ ^^^ lbl b2 v2 Δ = lbl (b1 ^^^ b2) (v1.xor v2) Δ := by
  rw [lbl, lbl, lbl, xor_mix, offs_xor]

lemma color_lbl (bse : Nat) (v : Bool) {Δ : Nat} (hΔ : Δ.testBit 0 = true) :
    color (lbl bse v Δ) = (color bse).xor v := by
  cases v
  · simp [color, lbl, offs]
  · simp only [color, lbl, offs, if_true]
    rw [Nat.testBit_xor, hΔ]

lemma bool_xor_cancel (c v : Bool) : (c.xor v).xor c = v := by
  cases c <;> cases v <;> rfl

lemma decode_lbl {Δ : Nat} (hΔ : Δ.testBit 0 = true) (bse : Nat) (v : Bool) :
    decode_bit Δ bse (lbl bse v Δ) = some v := by
  have hΔ0 : Δ ≠ 0 := by
    intro h
    rw [h] at hΔ
    simp [Nat.zero_testBit] at hΔ
  cases v
  · simp [decode_bit, lbl, offs]
  · have h1 : lbl bse true Δ = bse ^^^ Δ := by simp [lbl, offs]
    rw [h1, decode_bit, if_neg (fun h => hΔ0 (xor_right_eq_self h)), if_pos rfl]

/-! ## Wire-store lemmas -/

lemma merge_upd (Δ : Nat) (B : Nat → Option Nat) (vm : Nat → Option Bool)
    (w : Nat) (bse : Nat) (v : Bool) :
    merge Δ (upd B w bse) (upd vm w v) = upd (merge Δ B vm) w (lbl bse v Δ) := by
  funext z
  by_cases hz : z = w <;> simp [merge, upd, hz]

lemma merge_some {Δ : Nat} {B : Nat → Option Nat} {vm : Nat → Option Bool}
    {w : Nat} {bse : Nat} {v : Bool} (hB : B w = some bse) (hv : vm w = some v) :
    merge Δ B vm w = some (lbl bse v Δ) := by
  simp [merge, hB, hv]

lemma dom_upd {B : Nat → Option Nat} {vm : Nat → Option Bool}
    (h : ∀ w, (B w).isSome = (vm w).isSome) (w0 : Nat) (bse : Nat) (v : Bool) :
    ∀ w, ((upd B w0 bse) w).isSome = ((upd vm w0 v) w).isSome := by
  intro w
  by_cases hw : w = w0 <;> simp [upd, hw, h w]

/-! ## Garbling correctness -/

/-- The joint walk: whenever plaintext evaluation of a gate suffix
succeeds, garbling succeeds, encoding the remaining inputs succeeds,
and the garbled evaluation on the merged label store tracks the merged
result store. -/
lemma go_correct (H : Nat → Nat → Nat → Nat) (R : Nat → Nat) {Δ : Nat}
    (hΔ : Δ.testBit 0 = true) :
    ∀ (gs : List Gate) (p : Nat) (vm : Nat → Option Bool) (B : Nat → Option Nat)
      (a b : List Bool) (vm' : Nat → Option Bool),
      evalPlainGo gs p vm a b = some vm' →
      (∀ w, (B w).isSome = (vm w).isSome) →
      ∃ parts gla glb,
        garbleGo H R Δ gs p B = some parts ∧
        (∀ w, (parts.base w).isSome = (vm' w).isSome) ∧
        encList Δ parts.gbases a = some gla ∧
        encList Δ parts.ebases b = some glb ∧
        evalGCGo H gs p (merge Δ B vm) gla glb parts.consts parts.tables
          = some (merge Δ parts.base vm') := by
  intro gs
  induction gs with
  | nil =>
    intro p vm B a b vm' hp hdom
    cases hp
    exact ⟨⟨B, [], [], [], []⟩, [], [], rfl, hdom, rfl, rfl, rfl⟩
  | cons gate rest ih =>
    intro p vm B a b vm' hp hdom
    cases gate with
    | GarblerInput gid =>
      cases a with
      | nil => simp [evalPlainGo] at hp
      | cons v a2 =>
        simp only [evalPlainGo] at hp
        obtain ⟨parts, gla, glb, hg, hdom2, henc1, henc2, heval⟩ :=
          ih (p + 1) (upd vm p v) (upd B p (R p)) a2 b vm' hp (dom_upd hdom p (R p) v)
        refine ⟨{ parts with gbases := R p :: parts.gbases },
          lbl (R p) v Δ :: gla, glb, ?_, hdom2, ?_, henc2, ?_⟩
        · simp only [garbleGo, hg]
        · simp only [encList, henc1]
        · simp only [evalGCGo]
          rw [← merge_upd]
          exact heval
    | EvaluatorInput gid =>
      cases b with
      | nil => simp [evalPlainGo] at hp
      | cons v b2 =>
        simp only [evalPlainGo] at hp
        obtain ⟨parts, gla, glb, hg, hdom2, henc1, henc2, heval⟩ :=
          ih (p + 1) (upd vm p v) (upd B p (R p)) a b2 vm' hp (dom_upd hdom p (R p) v)
        refine ⟨{ parts with ebases := R p :: parts.ebases },
          gla, lbl (R p) v Δ :: glb, ?_, hdom2, henc1, ?_, ?_⟩
        · simp only [garbleGo, hg]
        · simp only [encList, henc2]
        · simp only [evalGCGo]
          rw [← merge_upd]
          exact heval
    | Constant val =>
      simp only [evalPlainGo] at hp
      obtain ⟨parts, gla, glb, hg, hdom2, henc1, henc2, heval⟩ :=
        ih (p + 1) (upd vm p (val2bit val)) (upd B p (R p)) a b vm'
          hp (dom_upd hdom p (R p) (val2bit val))
      refine ⟨{ parts with consts := lbl (R p) (val2bit val) Δ :: parts.consts },
        gla, glb, ?_, hdom2, henc1, henc2, ?_⟩
      · simp only [garbleGo, hg]
      · simp only [evalGCGo]
        rw [← merge_upd]
        exact heval
    | Add x y out =>
      cases hx : vm x.ix with
      | none => simp [evalPlainGo, hx] at hp
      | some bx =>
        cases hy : vm y.ix with
        | none => simp [evalPlainGo, hx, hy] at hp
        | some bv =>
          simp only [evalPlainGo, hx, hy] at hp
          obtain ⟨Bx, hBx⟩ := Option.isSome_iff_exists.mp (by rw [hdom x.ix, hx]; rfl)
          obtain ⟨Bv, hBy⟩ := Option.isSome_iff_exists.mp (by rw [hdom y.ix, hy]; rfl)
          obtain ⟨parts, gla, glb, hg, hdom2, henc1, henc2, heval⟩ :=
            ih (p + 1) (upd vm (out.getD p) (bx.xor bv))
              (upd B (out.getD p) (Bx ^^^ Bv)) a b vm' hp (dom_upd hdom _ _ _)
          refine ⟨parts, gla, glb, ?_, hdom2, henc1, henc2, ?_⟩
          · simp only [garbleGo, hBx, hBy]
            exact hg
          · simp only [evalGCGo, merge_some hBx hx, merge_some hBy hy]
            rw [lbl_xor, ← merge_upd]
            exact heval
    | Sub x y out =>
      cases hx : vm x.ix with
      | none => simp [evalPlainGo, hx] at hp
      | some bx =>
        cases hy : vm y.ix with
        | none => simp [evalPlainGo, hx, hy] at hp
        | some bv =>
          simp only [evalPlainGo, hx, hy] at hp
          obtain ⟨Bx, hBx⟩ := Option.isSome_iff_exists.mp (by rw [hdom x.ix, hx]; rfl)
          obtain ⟨Bv, hBy⟩ := Option.isSome_iff_exists.mp (by rw [hdom y.ix, hy]; rfl)
          obtain ⟨parts, gla, glb, hg, hdom2, henc1, henc2, heval⟩ :=
            ih (p + 1) (upd vm (out.getD p) (bx.xor bv))
              (upd B (out.getD p) (Bx ^^^ Bv)) a b vm' hp (dom_upd hdom _ _ _)
          refine ⟨parts, gla, glb, ?_, hdom2, henc1, henc2, ?_⟩
          · simp only [garbleGo, hBx, hBy]
            exact hg
          · simp only [evalGCGo, merge_some hBx hx, merge_some hBy hy]
            rw [lbl_xor, ← merge_upd]
            exact heval
    | Mul x y gid out =>
      cases hx : vm x.ix with
      | none => simp [evalPlainGo, hx] at hp
      | some bx =>
        cases hy : vm y.ix with
        | none => simp [evalPlainGo, hx, hy] at hp
        | some bv =>
          simp only [evalPlainGo, hx, hy] at hp
          obtain ⟨Bx, hBx⟩ := Option.isSome_iff_exists.mp (by rw [hdom x.ix, hx]; rfl)
          obtain ⟨Bv, hBy⟩ := Option.isSome_iff_exists.mp (by rw [hdom y.ix, hy]; rfl)
          obtain ⟨parts, gla, glb, hg, hdom2, henc1, henc2, heval⟩ :=
            ih (p + 1) (upd vm (out.getD p) (bx && bv))
              (upd B (out.getD p) (R p)) a b vm' hp (dom_upd hdom _ _ _)
          refine ⟨{ parts with tables :=
              (fun ca cb =>
                H (lbl Bx (ca.xor (color Bx)) Δ) (lbl Bv (cb.xor (color Bv)) Δ) gid ^^^
                  lbl (R p) ((ca.xor (color Bx)) && (cb.xor (color Bv))) Δ)
              :: parts.tables },
            gla, glb, ?_, hdom2, henc1, henc2, ?_⟩
          · simp only [garbleGo, hBx, hBy, hg]
          · have hcx : (color (lbl Bx bx Δ)).xor (color Bx) = bx := by
              rw [color_lbl Bx bx hΔ, bool_xor_cancel]
            have hcy : (color (lbl Bv bv Δ)).xor (color Bv) = bv := by
              rw [color_lbl Bv bv hΔ, bool_xor_cancel]
            simp only [evalGCGo, merge_some hBx hx, merge_some hBy hy]
            rw [hcx, hcy, xor_cancel_left, ← merge_upd]
            exact heval

/-- Reading the outputs of the merged store and decoding them against
the garbler decode bases recovers the plaintext outputs. -/
lemma readRefs_decode {Δ : Nat} (hΔ : Δ.testBit 0 = true)
    (B : Nat → Option Nat) (vm : Nat → Option Bool)
    (hdom : ∀ w, (B w).isSome = (vm w).isSome) :
    ∀ (refs : List CircuitRef) (out : List Bool),
      readRefs vm refs = some out →
      ∃ obs Ls, readRefs B refs = some obs ∧
        readRefs (merge Δ B vm) refs = some Ls ∧
        decodeList Δ obs Ls = some out := by
  intro refs
  induction refs with
  | nil =>
    intro out h
    cases h
    exact ⟨[], [], rfl, rfl, rfl⟩
  | cons r rs ih =>
    intro out h
    cases hv : vm r.ix with
    | none => simp [readRefs, hv] at h
    | some v =>
      cases hrest : readRefs vm rs with
      | none => simp [readRefs, hv, hrest] at h
      | some vs =>
        simp only [readRefs, hv, hrest] at h
        cases h
        obtain ⟨bse, hB⟩ := Option.isSome_iff_exists.mp (by rw [hdom r.ix, hv]; rfl)
        obtain ⟨obs, Ls, h1, h2, h3⟩ := ih vs hrest
        exact ⟨bse :: obs, lbl bse v Δ :: Ls,
          by simp [readRefs, hB, h1],
          by simp [readRefs, merge_some hB hv, h2],
          by simp [decodeList, decode_lbl hΔ, h3]⟩

/-- C1: for every circuit and every pair of concrete input sequences on
which plaintext evaluation succeeds, garbling (for any hash, any label
randomness and any free-XOR offset with the color bit set), encoding
the inputs with the Encoder, evaluating the garbled circuit and
decoding the output labels yields exactly the plaintext result. -/
theorem garbled_run_matches_eval_plain (H : Nat → Nat → Nat → Nat) (R : Nat → Nat)
    (Δ : Nat) (hΔ : Δ.testBit 0 = true) (c : Circuit) (a b out : List Bool)
    (h : c.eval_plain a b = some out) :
    garbledRun H R Δ c a b = some out := by
  rw [Circuit.eval_plain] at h
  cases hm : evalPlainGo c.gates 0 (fun _ => none) a b with
  | none => rw [hm] at h; cases h
  | some vm' =>
    rw [hm] at h
    obtain ⟨parts, gla, glb, hg, hdom2, henc1, henc2, heval⟩ :=
      go_correct H R hΔ c.gates 0 (fun _ => none) (fun _ => none) a b vm' hm
        (fun w => rfl)
    obtain ⟨obs, Ls, hobs, hLs, hdec⟩ :=
      readRefs_decode hΔ parts.base vm' hdom2 c.output_refs out h
    have hmerge0 : merge Δ (fun _ => none) (fun _ => none) =
        (fun _ => (none : Option Nat)) :=
      funext fun w => rfl
    rw [hmerge0] at heval
    simp only [garbledRun, garble, hg, hobs, Encoder.encode_garbler_inputs,
      Encoder.encode_evaluator_inputs, GarbledCircuit.eval, Encoder.decode_outputs,
      henc1, henc2, heval, hLs, hdec]

theorem garbled_run_matches_eval_plain_witness :
    (13 : Nat).testBit 0 = true ∧
    c1Circ.eval_plain [true] [true] = some [true, false, true] ∧
    garbledRun c1Hash c1Rand 13 c1Circ [true] [true] = some [true, false, true] :=
  ⟨by decide, by decide,
    garbled_run_matches_eval_plain c1Hash c1Rand 13 (by decide) c1Circ
      [true] [true] [true, false, true] (by decide)⟩

/-! ## Parser lemmas -/

lemma hasOverlap_iff (g e : List Nat) : hasOverlap g e = true ↔ ∃ x, x ∈ g ∧ x ∈ e := by
  simp only [hasOverlap, List.any_eq_true, beq_iff_eq]
  constructor
  · rintro ⟨x, hx, y, hy, rfl⟩
    exact ⟨x, hx, hy⟩
  · rintro ⟨x, hx, hxe⟩
    exact ⟨x, hx, x, hxe, rfl⟩

lemma PResult.map_eq_ok {α β : Type} (f : α → β) (x : PResult α) (b : β) :
    x.map f = .ok b ↔ ∃ a, x = .ok a ∧ f a = b := by
  cases x <;> simp [PResult.map]

/-- Inversion of the success path of `Circuit::parse`. -/
lemma parse_ok_inv {lines : List String} {g e : List Nat} {c : Circuit}
    (h : Circuit.parse lines g e = .ok c) :
    hasOverlap g e = false ∧
    ∃ ng nw ni iw no w0 ws pg,
      parseHeader1 (lines.getD 0 "") = .ok (ng, nw) ∧
      parseGroupLine (lines.getD 1 "") = .ok (ni, iw) ∧
      parseGroupLine (lines.getD 2 "") = .ok (no, w0 :: ws) ∧
      ¬(0 < w0 ∧ nw < w0) ∧
      parseGates (CircuitRef.mk (g.dedup.length + e.dedup.length) 2)
        (lines.drop 3) 0 = .ok pg ∧
      c = mkCircuit g e nw w0 pg := by
  unfold Circuit.parse at h
  repeat' split at h
  all_goals cases h
  rename_i hov x3 ng nw hh1 x2 ni iw hh2 x1 no onw w0 ws hh3 hw0 x4 pg hpg
  exact ⟨by simpa using hov, ng, nw, ni, iw, no, w0, ws, pg, hh1, hh2, hh3, hw0, hpg, rfl⟩

/-! ## Claim C2 -/

/-- C2: whenever the garbler and evaluator wire-index vectors share an
element, `Circuit::parse` returns the input-overlap error, whatever the
content of the file: the check precedes every read of file content. -/
theorem parse_overlap_input_err (lines : List String) (g e : List Nat)
    (h : ∃ x, x ∈ g ∧ x ∈ e) :
    Circuit.parse lines g e = .err .InputError := by
  rw [Circuit.parse, if_pos ((hasOverlap_iff g e).mpr h)]

theorem parse_overlap_input_err_witness :
    (∃ x, x ∈ [0] ∧ x ∈ [0]) ∧ Circuit.parse [] [0] [0] = .err .InputError :=
  ⟨⟨0, by decide, by decide⟩,
    parse_overlap_input_err [] [0] [0] ⟨0, by decide, by decide⟩⟩

/-! ## Claim C3 -/

/-- C3: `Circuit::parse` is not total — on a file whose only line is
"1 2" (so the second `read_line` yields the empty string and the line
holds no digit run), the indexing `line_2[0]` panics instead of
returning an `Err`, contradicting the documented contract that a
`CircuitParserError` is returned for malformed files. -/
theorem parse_panics_on_one_line_file :
    Circuit.parse ["1 2"] [] [] = .panic := by decide

/-! ## Claim C4 -/

/-- C4: on every successful parse, `output_refs` is exactly the refs
with wire indices `nwires - w0, ..., nwires - 1` in increasing order,
where `nwires` is the second integer of the header and `w0` the first
declared output-group width; later group widths and the gate lines do
not enter the formula. -/
theorem parse_output_refs_from_header (lines : List String) (g e : List Nat)
    (c : Circuit) (ng nw no w0 : Nat) (ws : List Nat)
    (h : Circuit.parse lines g e = .ok c)
    (h1 : parseHeader1 (lines.getD 0 "") = .ok (ng, nw))
    (h3 : parseGroupLine (lines.getD 2 "") = .ok (no, w0 :: ws)) :
    c.output_refs = (List.range w0).map (fun i => CircuitRef.mk (nw - w0 + i) 2) := by
  obtain ⟨-, ng', nw', ni, iw, no', w0', ws', pg, h1', h2', h3', hw0, hpg, rfl⟩ :=
    parse_ok_inv h
  have e1 := h1.symm.trans h1'
  have e3 := h3.symm.trans h3'
  simp only [PResult.ok.injEq, Prod.mk.injEq, List.cons.injEq] at e1 e3
  obtain ⟨-, rfl⟩ := e1
  obtain ⟨-, rfl, -⟩ := e3
  simp [mkCircuit]

theorem parse_output_refs_from_header_witness :
    Circuit.parse ["1 5", "0", "2 2 9"] [] [] = .ok c4Circ ∧
    parseHeader1 (["1 5", "0", "2 2 9"].getD 0 "") = .ok (1, 5) ∧
    parseGroupLine (["1 5", "0", "2 2 9"].getD 2 "") = .ok (2, [2, 9]) ∧
    c4Circ.output_refs = (List.range 2).map (fun i => CircuitRef.mk (5 - 2 + i) 2) :=
  ⟨by decide, by decide, by decide,
    parse_output_refs_from_header ["1 5", "0", "2 2 9"] [] [] c4Circ 1 5 2 2 [9]
      (by decide) (by decide) (by decide)⟩

/-! ## Claim C5 -/

lemma parseGates_mul_ids (oneref : CircuitRef) :
    ∀ (ls : List String) (id : Nat) (pg : List Gate),
      parseGates oneref ls id = .ok pg →
      ∃ n, pg.filterMap mulId = List.range' id n := by
  intro ls
  induction ls with
  | nil =>
    intro id pg h
    cases h
    exact ⟨0, rfl⟩
  | cons l rest ih =>
    intro id pg h
    simp only [parseGates] at h
    repeat' split at h
    all_goals try cases h
    case _ => exact ih _ _ h
    case _ =>
      obtain ⟨pg', hpg', rfl⟩ := (PResult.map_eq_ok _ _ _).mp h
      obtain ⟨n, hn⟩ := ih _ _ hpg'
      exact ⟨n, by simp [List.filterMap_cons, mulId, hn]⟩
    case _ =>
      obtain ⟨pg', hpg', rfl⟩ := (PResult.map_eq_ok _ _ _).mp h
      obtain ⟨n, hn⟩ := ih _ _ hpg'
      refine ⟨n + 1, ?_⟩
      rw [List.range'_succ]
      simp [List.filterMap_cons, mulId, hn]
    case _ =>
      obtain ⟨pg', hpg', rfl⟩ := (PResult.map_eq_ok _ _ _).mp h
      obtain ⟨n, hn⟩ := ih _ _ hpg'
      exact ⟨n, by simp [List.filterMap_cons, mulId, hn]⟩

lemma prelude_mul_ids (G E : Nat) :
    (preludeGates G E).filterMap mulId = [] := by
  rw [List.filterMap_eq_nil_iff]
  intro g hg
  simp only [preludeGates, List.mem_append, List.mem_map, List.mem_singleton] at hg
  rcases hg with (⟨i, -, rfl⟩ | ⟨i, -, rfl⟩) | rfl <;> rfl

/-- C5: in every parsed circuit the Mul nonces, read in gate-list
order, are exactly `0, 1, 2, ...` — unique, strictly increasing, and
advanced only by AND lines. -/
theorem parse_mul_ids_are_range (lines : List String) (g e : List Nat) (c : Circuit)
    (h : Circuit.parse lines g e = .ok c) :
    c.gates.filterMap mulId = List.range (c.gates.filterMap mulId).length := by
  obtain ⟨-, ng, nw, ni, iw, no, w0, ws, pg, -, -, -, -, hpg, rfl⟩ := parse_ok_inv h
  obtain ⟨n, hn⟩ := parseGates_mul_ids _ _ _ _ hpg
  have : (mkCircuit g e nw w0 pg).gates.filterMap mulId = List.range' 0 n := by
    simp [mkCircuit, List.filterMap_append, prelude_mul_ids, hn]
  rw [this, List.length_range', ← List.range_eq_range']

theorem parse_mul_ids_are_range_witness :
    Circuit.parse ["1 3", "0", "1 1", "2 1 0 1 2 AND", "2 1 0 1 2 XOR", "2 1 1 2 0 AND"]
        [0] [1] = .ok c5Circ ∧
    c5Circ.gates.filterMap mulId = List.range (c5Circ.gates.filterMap mulId).length :=
  ⟨by decide,
    parse_mul_ids_are_range
      ["1 3", "0", "1 1", "2 1 0 1 2 AND", "2 1 0 1 2 XOR", "2 1 1 2 0 AND"]
      [0] [1] c5Circ (by decide)⟩

/-! ## Claim C6 -/

/-- The header handler rejects with a structural error carrying the line
exactly when the count of maximal digit runs differs from two. -/
lemma parseHeader1_line_err (s : String) :
    parseHeader1 s = .err (.ParseLineError s) ↔ (digitRuns s).length ≠ 2 := by
  unfold parseHeader1
  rcases hd : digitRuns s with _ | ⟨a, _ | ⟨b, _ | _⟩⟩ <;>
    simp only [hd, List.length_nil, List.length_cons]
  · simp
  · simp
  · cases parseUsize a <;> cases parseUsize b <;> simp
  · simp

/-- C6 counterexample: a first line that is not two integers — it
contains letters — is nevertheless accepted (digit runs are extracted,
everything between them ignored), so "rejects every first line that is
not exactly two integers" fails as stated. -/
theorem header_not_two_integers_accepted :
    specTwoIntegers "x1y2z" = false ∧
    (Circuit.parse ["x1y2z", "0", "1 1"] [] []).isOk = true := by decide

/-- C6 (amended): `parse` fails with a structural `ParseLineError`
carrying the first line exactly when the first line does not contain
exactly two maximal digit runs; characters around or between the runs
are ignored, so a line such as "x1y2z" counts as two integers. -/
theorem header_line_err_iff :
    (∀ s : String,
      parseHeader1 s = .err (.ParseLineError s) ↔ (digitRuns s).length ≠ 2) ∧
    (∀ (lines : List String) (g e : List Nat), hasOverlap g e = false →
      (digitRuns (lines.getD 0 "")).length ≠ 2 →
      Circuit.parse lines g e = .err (.ParseLineError (lines.getD 0 ""))) := by
  refine ⟨parseHeader1_line_err, fun lines g e hov hlen => ?_⟩
  rw [Circuit.parse, if_neg (by simp [hov]),
    (parseHeader1_line_err (lines.getD 0 "")).mpr hlen]

theorem header_line_err_iff_witness :
    parseHeader1 "1 2 3" = .err (.ParseLineError "1 2 3") ∧
    hasOverlap [] [] = false ∧
    (digitRuns (["1 2 3"].getD 0 "")).length ≠ 2 ∧
    Circuit.parse ["1 2 3"] [] [] = .err (.ParseLineError "1 2 3") :=
  ⟨(header_line_err_iff.1 "1 2 3").mpr (by decide), by decide, by decide,
    header_line_err_iff.2 ["1 2 3"] [] [] (by decide) (by decide)⟩

/-! ## Claim C7 -/

/-- C7 counterexample: the gate regexes are searched unanchored, so the
line "1x1 1 2 3 INVxx" — which matches neither admissible shape and is
not blank — does not abort the parse: it emits a Sub gate built from
the embedded match. -/
theorem junk_gate_line_emits_gate :
    specAdmissibleGateLine "1x1 1 2 3 INVxx" = false ∧
    "1x1 1 2 3 INVxx" ≠ "" ∧
    (Circuit.parse ["1 9", "0", "1 1", "1x1 1 2 3 INVxx"] [] []).map (fun c => c.gates)
      = .ok [Gate.Constant 1,
          Gate.Sub (CircuitRef.mk 0 2) (CircuitRef.mk 2 2) (some 3)] := by decide

/-- C7 (amended): each gate-section line is handled in exactly one of
four ways, dispatched on its first character: the empty line is skipped
with no gate emitted; a line starting with a matching character whose
text contains a substring matching the INV (resp. AND/XOR) pattern
emits exactly one gate; otherwise the parse aborts with a
`ParseLineError` carrying the offending line, or with `ParseIntError`
when a matched integer overflows `usize`.  Whitespace-only lines are
not skipped but abort, and trailing or leading junk around an embedded
pattern match does not abort. -/
theorem gate_line_handling (oneref : CircuitRef) (l : String) (ls : List String)
    (id : Nat) :
    (l = "" ∧ parseGates oneref (l :: ls) id = parseGates oneref ls id) ∨
    (∃ gate id2, parseGates oneref (l :: ls) id =
      (parseGates oneref ls id2).map (gate :: ·)) ∨
    parseGates oneref (l :: ls) id = .err (.ParseLineError l) ∨
    parseGates oneref (l :: ls) id = .err .ParseIntError := by
  simp only [parseGates]
  repeat' split
  all_goals first
    | exact Or.inr (Or.inr (Or.inl rfl))
    | exact Or.inr (Or.inr (Or.inr rfl))
    | exact Or.inr (Or.inl ⟨_, _, rfl⟩)
    | refine Or.inl ⟨?_, rfl⟩
  rename_i hc
  cases l with
  | mk d =>
    cases d with
    | nil => decide
    | cons c cs => exact absurd hc (by simp)

/-! ## Claim C8 -/

/-- C8 counterexample: `Circuit::parse` returns `Ok` on a file whose
gate line references wires never produced by any earlier gate, so the
parser does not validate producers-precede-consumers. -/
theorem parse_ok_without_producers_check :
    (Circuit.parse ["1 5", "0", "1 1", "2 1 7 8 4 AND"] [] []).map producersPrecede
      = .ok false := by decide

/-- C8 (amended): the producers-precede-consumers invariant is not
validated by `Circuit::parse`: there are files that parse to `Ok`
although a gate references a wire no earlier gate produced; the
invariant holds only of well-formed input files. -/
theorem parse_does_not_validate_producers :
    Circuit.parse ["1 5", "0", "1 1", "2 1 7 8 4 AND"] [] [] = .ok c8Circ ∧
    producersPrecede c8Circ = false := by decide

/-! ## Claim C9 -/

/-- C9: every successful parse emits, before anything else, one
GarblerInput gate per distinct garbler wire with ids `0..g-1` in order,
then one EvaluatorInput gate per distinct evaluator wire with ids
`0..e-1`, then a single Constant gate of value 1; and `const_refs` is
exactly one ref at wire index `g + e`. -/
theorem parse_prelude_shape (lines : List String) (g e : List Nat) (c : Circuit)
    (h : Circuit.parse lines g e = .ok c) :
    c.gates.take (g.dedup.length + e.dedup.length + 1) =
      (List.range g.dedup.length).map Gate.GarblerInput ++
        (List.range e.dedup.length).map Gate.EvaluatorInput ++ [Gate.Constant 1] ∧
    c.const_refs = [CircuitRef.mk (g.dedup.length + e.dedup.length) 2] := by
  obtain ⟨-, ng, nw, ni, iw, no, w0, ws, pg, -, -, -, -, -, rfl⟩ := parse_ok_inv h
  constructor
  · have hlen : g.dedup.length + e.dedup.length + 1 =
        (preludeGates g.dedup.length e.dedup.length).length := by
      simp [preludeGates]
      omega
    show (preludeGates g.dedup.length e.dedup.length ++ pg).take _ = _
    rw [hlen, List.take_left]
    rfl
  · rfl

theorem parse_prelude_shape_witness :
    Circuit.parse ["1 3", "0", "1 1"] [0] [1] = .ok c9Circ ∧
    (c9Circ.gates.take ([0].dedup.length + [1].dedup.length + 1) =
      (List.range [0].dedup.length).map Gate.GarblerInput ++
        (List.range [1].dedup.length).map Gate.EvaluatorInput ++ [Gate.Constant 1] ∧
    c9Circ.const_refs = [CircuitRef.mk ([0].dedup.length + [1].dedup.length) 2]) :=
  ⟨by decide, parse_prelude_shape ["1 3", "0", "1 1"] [0] [1] c9Circ (by decide)⟩

/-! ## Claim C10 -/

/-- C10: the declared gate count is never cross-checked — two files
differing only in the gate-count field of the header parse to the very
same result (the count only sizes a capacity hint) — and gate wire
indices are never checked against the declared wire count: a file
declaring 7 gates and 5 wires whose single gate line references wire 9
parses successfully, the wire count entering only the output-ref
positions. -/
theorem parse_ignores_declared_counts :
    (∀ (l1 l1' : String) (r : List String) (g e : List Nat) (n n' w : Nat),
      parseHeader1 l1 = .ok (n, w) → parseHeader1 l1' = .ok (n', w) →
      Circuit.parse (l1 :: r) g e = Circuit.parse (l1' :: r) g e) ∧
    (Circuit.parse ["7 5", "0", "1 1", "2 1 9 9 9 XOR"] [] []).map (fun c => c.gates)
      = .ok [Gate.Constant 1,
          Gate.Add (CircuitRef.mk 9 2) (CircuitRef.mk 9 2) (some 9)] := by
  constructor
  · intro l1 l1' r g e n n' w h1 h1'
    rw [Circuit.parse, Circuit.parse]
    simp only [List.getD_cons_zero, List.getD_cons_succ, List.drop_succ_cons,
      h1, h1']
  · decide

theorem parse_ignores_declared_counts_witness :
    parseHeader1 "7 3" = .ok (7, 3) ∧
    parseHeader1 "1 3" = .ok (1, 3) ∧
    Circuit.parse ["7 3", "0", "1 1"] [] [] = Circuit.parse ["1 3", "0", "1 1"] [] [] :=
  ⟨by decide, by decide,
    parse_ignores_declared_counts.1 "7 3" "1 3" ["0", "1 1"] [] [] 7 1 3
      (by decide) (by decide)⟩

end FG
